import Mathlib

/-!
Formal model of the Chat-Rishika (Elysia) memory and personality core.

The definitions below are shallow embeddings of:

* `memory_management/json_memory_store.py` (`JsonMemoryStore`): identifier
  and text sanitization, the users index, `create_user`, `store_message`,
  `get_recent_messages`, profile deep-merge, fact storage, streak tracking
  and the temp-file-then-replace write;
* `personality_layer/personality_evolution.py` (`PersonalityEvolution`):
  the relationship-stage machine;
* `personality_layer/personality_adaptation.py` (`PersonalityAdaptation`):
  the comfort-escalation ladder;
* `personality_layer/utils/emotion_analysis.py` (`EmotionAnalyzer.analyze`).

Conventions: Python strings are `List Char` (user ids are re-packed as
`String` after sanitization); Python ints are `ℤ` or `ℕ`; Python floats in
the emotion analyser are exact rationals `ℚ` (the source only adds,
multiplies and divides small decimals); timestamps and calendar dates are
modelled at day granularity as `ℤ` (the code only ever compares the date
part).  Fallible code returns `Except`/`Option`; the broad
`try/except` blocks of the store are modelled by a `_body` function in
`Except` plus a wrapper that maps every error to the safe default return.
-/

/-! ### Python string helpers -/

/-- `str.strip()`: drop leading and trailing whitespace. -/
def pyStrip (s : List Char) : List Char :=
  ((s.dropWhile Char.isWhitespace).reverse.dropWhile Char.isWhitespace).reverse

/-- A character kept by `re.sub(r'[^a-zA-Z0-9_\-]', '', ·)`. -/
def isIdChar (c : Char) : Bool :=
  c.isAlphanum || c == '_' || c == '-'

/-- Number of words of `len(text.split())`: maximal runs of
non-whitespace characters.  `prevWs` records whether the previous
character was whitespace (or the start of the string). -/
def wordCountGo (prevWs : Bool) : List Char → ℕ
  | [] => 0
  | c :: rest =>
    if c.isWhitespace then wordCountGo true rest
    else (if prevWs then 1 else 0) + wordCountGo false rest

def pyWordCount (l : List Char) : ℕ := wordCountGo true l

/-- Substring containment, Python `needle in hay`. -/
def isPrefixOfChars : List Char → List Char → Bool
  | [], _ => true
  | _ :: _, [] => false
  | a :: as_, b :: bs => a == b && isPrefixOfChars as_ bs

def occursIn (needle : List Char) : List Char → Bool
  | [] => needle.isEmpty
  | c :: rest => isPrefixOfChars needle (c :: rest) || occursIn needle rest

/-! ### Sanitizer (`JsonMemoryStore._sanitize_user_id`, `_sanitize_string`) -/

/-- `_sanitize_user_id`: strip, keep `[a-zA-Z0-9_-]`, and fail
(`ValueError("User ID contains no valid characters")`) when nothing is
left.  The non-string branch (`ValueError("User ID must be a string")`)
is outside a typed embedding of string arguments. -/
def sanitize_user_id (raw : String) : Except String String :=
  let s := (pyStrip raw.toList).filter isIdChar
  if s.isEmpty then .error "User ID contains no valid characters"
  else .ok s.asString

theorem length_dropWhile_le' (p : Char → Bool) (l : List Char) :
    (l.dropWhile p).length ≤ l.length := by
  induction l with
  | nil => simp [List.dropWhile]
  | cons c rest ih =>
    simp only [List.dropWhile]
    split
    · exact Nat.le_succ_of_le ih
    · simp

/-- `_sanitize_string` on a string argument:
`re.sub(r'<[^>]*>', '', text)`.  On seeing `<`, the regex engine consumes
greedily up to (and including) the first following `>` — `[^>]*` may eat
further `<` but never a `>`; a `<` with no later `>` never matches and is
kept verbatim together with the rest of the text. -/
def sanitize_string (l : List Char) : List Char :=
  match l with
  | [] => []
  | c :: rest =>
    if c = '<' then
      if rest.contains '>' then
        sanitize_string ((rest.dropWhile (fun d => d ≠ '>')).tail)
      else c :: rest
    else c :: sanitize_string rest
termination_by l.length
decreasing_by
  · have h1 : (rest.dropWhile (fun d => d ≠ '>')).length ≤ rest.length :=
      length_dropWhile_le' _ _
    have h2 : ((rest.dropWhile (fun d => d ≠ '>')).tail).length =
        (rest.dropWhile (fun d => d ≠ '>')).length - 1 := List.length_tail _
    simp only [List.length_cons]
    omega
  · simp only [List.length_cons]
    omega

/-- A text is tag-free when no `>` occurs anywhere after a `<`; this is
exactly the absence of a `<[^>]*>`-shaped substring. -/
def tagFree : List Char → Bool
  | [] => true
  | c :: rest => (if c = '<' then !rest.contains '>' else true) && tagFree rest

/-! ### Streak state machine (`JsonMemoryStore.update_streak`) -/

/-- The fields of `interaction_metrics.json` that the store reads and
writes, with the `.get(..., default)` defaults of the source as Lean
default values.  Dates are day numbers (`ℤ`); an unparsable or missing
`last_interaction_date` is `none`. -/
structure Metrics where
  message_count : ℕ := 0
  total_words : ℕ := 0
  first_interaction : Option ℤ := none
  last_interaction : Option ℤ := none
  interaction_dates : List ℤ := []
  streak_days : ℤ := 0
  longest_streak : ℤ := 0
  last_interaction_date : Option ℤ := none
deriving Repr, DecidableEq

structure StreakResult where
  current_streak : ℤ
  longest_streak : ℤ
  last_interaction : ℤ
deriving Repr, DecidableEq

/-- `update_streak` on the metrics document, `today` being
`datetime.now().date()`.  Returns the result dict and the written
metrics. -/
def update_streak (today : ℤ) (m : Metrics) : StreakResult × Metrics :=
  let dates :=
    if today ∈ m.interaction_dates then m.interaction_dates
    else List.insertionSort (· ≤ ·) (m.interaction_dates ++ [today])
  let new_streak : ℤ :=
    match m.last_interaction_date with
    | none => 1
    | some last =>
      if last = today then m.streak_days
      else if last = today - 1 then m.streak_days + 1
      else 1
  let longest := if new_streak > m.longest_streak then new_streak else m.longest_streak
  (⟨new_streak, longest, today⟩,
   { m with
     interaction_dates := dates
     streak_days := new_streak
     longest_streak := longest
     last_interaction_date := some today })

/-! ### Relationship-stage machine (`PersonalityEvolution`) -/

def stages : List String :=
  ["new", "acquaintance", "familiar", "close", "trusted", "intimate"]

def stage_thresholds : List (String × ℕ) :=
  [("acquaintance", 10), ("familiar", 25), ("close", 50),
   ("trusted", 100), ("intimate", 200)]

/-- `self.stages.index(stage)`; an unknown stage maps past the end
(the Python code would raise there, and never stores such a stage). -/
def stageIndex (s : String) : ℕ := stages.indexOf s

/-- The fields of `evolution_data.json` that drive stage progression.
The per-day `evolution_stats` aggregates are not modelled: the source
only ever appends to them and they feed back into nothing. -/
structure EvolutionData where
  stage : String := "new"
  interaction_count : ℕ := 0
  meaningful_interactions : ℕ := 0
deriving Repr, DecidableEq

/-- The `interaction_data` dict: the two keys `update_evolution_stats`
reads for the depth score. -/
structure InteractionData where
  depth_level : Option ℚ := none
  emotion_intensity : Option ℚ := none
deriving Repr, DecidableEq

def depthScore (i : InteractionData) : ℚ :=
  match i.depth_level with
  | some d => d
  | none =>
    match i.emotion_intensity with
    | some e => e * (7 / 10)
    | none => 0

/-- One iteration of the stage-progression loop: `current_stage != stage
and meaningful_interactions >= threshold` guards
`if self.stages.index(stage) > self.stages.index(current_stage)`,
which assigns `data["stage"] = stage`.  `cur` is the stage read before
the loop; the source compares against it throughout. -/
def stageStep (cur : String) (mi : ℕ) (acc : String) (p : String × ℕ) : String :=
  if cur ≠ p.1 ∧ p.2 ≤ mi ∧ stageIndex cur < stageIndex p.1 then p.1 else acc

/-- `update_evolution_stats`: bump `interaction_count`, bump
`meaningful_interactions` when the depth score exceeds 0.5, then walk
`stage_thresholds` in order, moving to each stage whose threshold is met
provided its index exceeds the index of the stage held before the loop. -/
def update_evolution_stats (d : EvolutionData) (i : InteractionData) : EvolutionData :=
  let ic := d.interaction_count + 1
  let ds := depthScore i
  let mi := if ds > 1 / 2 then d.meaningful_interactions + 1 else d.meaningful_interactions
  let cur := d.stage
  let stage' := stage_thresholds.foldl (stageStep cur mi) cur
  { stage := stage', interaction_count := ic, meaningful_interactions := mi }

/-- One step of the spec-side reading "the highest stage whose threshold
is met": thresholds are listed in increasing order, so the last met wins. -/
def metStep (mi : ℕ) (acc : String) (p : String × ℕ) : String :=
  if p.2 ≤ mi then p.1 else acc

/-- The highest stage whose meaningful-interaction threshold is met. -/
def highestStageMet (mi : ℕ) : String :=
  stage_thresholds.foldl (metStep mi) "new"

theorem stageIndex_stageStep_ge (cur : String) (mi : ℕ) (l : List (String × ℕ))
    (acc : String) (hacc : stageIndex cur ≤ stageIndex acc) :
    stageIndex cur ≤ stageIndex (l.foldl (stageStep cur mi) acc) := by
  induction l generalizing acc with
  | nil => exact hacc
  | cons p rest ih =>
    simp only [List.foldl_cons]
    apply ih
    simp only [stageStep]
    split
    · next h => exact Nat.le_of_lt h.2.2
    · exact hacc

theorem stageIndex_stageStep_ge_met (cur : String) (mi : ℕ) (l : List (String × ℕ))
    (accF accG : String) (h1 : stageIndex cur ≤ stageIndex accF)
    (h2 : stageIndex accG ≤ stageIndex accF) :
    stageIndex (l.foldl (metStep mi) accG) ≤ stageIndex (l.foldl (stageStep cur mi) accF) := by
  induction l generalizing accF accG with
  | nil => exact h2
  | cons p rest ih =>
    simp only [List.foldl_cons]
    apply ih
    · simp only [stageStep]
      split
      · next h => exact Nat.le_of_lt h.2.2
      · exact h1
    · simp only [stageStep, metStep]
      by_cases hm : p.2 ≤ mi
      · rw [if_pos hm]
        by_cases hc : cur ≠ p.1 ∧ p.2 ≤ mi ∧ stageIndex cur < stageIndex p.1
        · rw [if_pos hc]
        · rw [if_neg hc]
          push_neg at hc
          by_cases he : cur = p.1
          · subst he
            omega
          · have hle := hc he hm
            omega
      · rw [if_neg hm, if_neg (fun h => hm h.2.1)]
        exact h2

/-! ### Claim theorems: streak and stage -/

/-- C3: for an existing user, `update_streak` is the date state machine
over the stored `last_interaction_date` versus `today`: no prior date
gives streak 1; a prior date equal to today leaves the counter unchanged;
a prior date equal to yesterday increments the streak by 1; any other
prior date resets the streak to 1; and the written `longest_streak` is
the maximum of its previous value and the new streak. -/
theorem update_streak_state_machine (today : ℤ) (m : Metrics) :
    (m.last_interaction_date = none → (update_streak today m).1.current_streak = 1) ∧
    (m.last_interaction_date = some today →
      (update_streak today m).1.current_streak = m.streak_days) ∧
    (m.last_interaction_date = some (today - 1) →
      (update_streak today m).1.current_streak = m.streak_days + 1) ∧
    (∀ d, m.last_interaction_date = some d → d ≠ today → d ≠ today - 1 →
      (update_streak today m).1.current_streak = 1) ∧
    ((update_streak today m).2.longest_streak =
      max m.longest_streak (update_streak today m).1.current_streak) ∧
    ((update_streak today m).2.streak_days = (update_streak today m).1.current_streak) := by
  refine ⟨?_, ?_, ?_, ?_, ?_, ?_⟩
  · intro h
    simp [update_streak, h]
  · intro h
    simp [update_streak, h]
  · intro h
    have hne : today - 1 ≠ today := by omega
    simp [update_streak, h, hne]
  · intro d h hd1 hd2
    simp [update_streak, h, hd1, hd2]
  · rcases h : m.last_interaction_date with _ | d <;>
      simp only [update_streak, h] <;>
      split_ifs <;>
      rw [max_def] <;>
      split_ifs <;>
      omega
  · rcases h : m.last_interaction_date with _ | d <;> simp [update_streak, h]

/-- Witness for C3: yesterday's date `9` against today `10` increments a
3-day streak to 4 and lifts `longest_streak` to 4. -/
theorem update_streak_state_machine_witness :
    (update_streak 10 { streak_days := 3
                        longest_streak := 3
                        last_interaction_date := some 9 }).1.current_streak = 3 + 1 :=
  (update_streak_state_machine 10 _).2.2.1 rfl

/-- C4: across any sequence of `update_evolution_stats` calls the
relationship-stage index (position in
`[new, acquaintance, familiar, close, trusted, intimate]`) never
decreases — both for a single call and along any `foldl` of calls —
and after each call the stage is at least the highest stage whose
meaningful-interaction threshold (10, 25, 50, 100, 200) is met by the
cumulative `meaningful_interactions` count. -/
theorem evolution_stage_monotone (d : EvolutionData) (i : InteractionData)
    (l : List InteractionData) :
    stageIndex d.stage ≤ stageIndex (update_evolution_stats d i).stage ∧
    stageIndex (highestStageMet (update_evolution_stats d i).meaningful_interactions) ≤
      stageIndex (update_evolution_stats d i).stage ∧
    stageIndex d.stage ≤ stageIndex (l.foldl update_evolution_stats d).stage := by
  have hsingle : ∀ (d' : EvolutionData) (i' : InteractionData),
      stageIndex d'.stage ≤ stageIndex (update_evolution_stats d' i').stage := by
    intro d' i'
    simp only [update_evolution_stats]
    exact stageIndex_stageStep_ge _ _ _ _ le_rfl
  refine ⟨hsingle d i, ?_, ?_⟩
  · simp only [update_evolution_stats, highestStageMet]
    apply stageIndex_stageStep_ge_met _ _ _ _ _ le_rfl
    have : stageIndex "new" = 0 := by decide
    omega
  · induction l generalizing d with
    | nil => exact le_rfl
    | cons i' rest ih =>
      simp only [List.foldl_cons]
      exact le_trans (hsingle d i') (ih _)

/-! ### EmotionAnalyzer.analyze (`utils/emotion_analysis.py`) -/

/-- `self.emotions`, in Python dict insertion order. -/
def emotions : List (String × List String) :=
  [("joy", ["happy", "glad", "excited", "wonderful", "joy", "fantastic",
            "great", "lovely", "pleased"]),
   ("sadness", ["sad", "unhappy", "depressed", "miserable", "down", "blue",
                "upset", "heartbroken"]),
   ("anger", ["angry", "mad", "furious", "annoyed", "irritated",
              "frustrated", "outraged"]),
   ("fear", ["afraid", "scared", "terrified", "fearful", "worried",
             "anxious", "nervous"]),
   ("surprise", ["surprised", "amazed", "astonished", "shocked", "stunned"]),
   ("neutral", [])]

/-- `text.lower()`, on the ASCII range the source vocabulary lives in. -/
def pyLower (l : List Char) : List Char := l.map Char.toLower

/-- `sum(1 for word in words if word in text)`: the number of keywords of
the category that occur (as substrings) in the text. -/
def countKw (t : List Char) (words : List String) : ℕ :=
  (words.filter (fun w => occursIn w.toList t)).length

/-- One step of the `for emotion, words in self.emotions.items()` loop:
replace the running `(max_emotion, max_count)` only on a strictly greater
count. -/
def pickStep (t : List Char) (acc : String × ℕ) (p : String × List String) : String × ℕ :=
  if acc.2 < countKw t p.2 then (p.1, countKw t p.2) else acc

structure AnalyzeResult where
  emotion : String
  intensity : ℚ
  depth : ℚ
  word_count : ℕ
  emotion_words : ℕ
deriving Repr, DecidableEq

/-- `EmotionAnalyzer.analyze`.  The `word_count` and `emotion_words`
fields are the `details` entries of the returned dict; empty input takes
the `if not text` early return (non-string input takes the same branch
and is covered by `analyzeInput`). -/
def analyze (text : List Char) : AnalyzeResult :=
  if text.isEmpty then ⟨"neutral", 0, 0, 0, 0⟩
  else
    let t := pyLower text
    let wc := pyWordCount t
    let pick := emotions.foldl (pickStep t) ("neutral", 0)
    let i0 : ℚ := min 1 ((pick.2 : ℚ) / max 1 ((wc : ℚ) / 2))
    let i1 := if occursIn ['!'] t then min 1 (i0 + 2 / 10) else i0
    let i2 := if occursIn ['!', '!'] t then min 1 (i1 + 3 / 10) else i1
    let i3 := if occursIn ['?'] t then max (3 / 10) i2 else i2
    let d0 : ℚ := min 1 ((wc : ℚ) / 20)
    let d1 := if occursIn "because".toList t || occursIn "since".toList t ||
                 occursIn "therefore".toList t then min 1 (d0 + 2 / 10) else d0
    let d2 := if occursIn "feel".toList t || occursIn "think".toList t ||
                 occursIn "believe".toList t then min 1 (d1 + 2 / 10) else d1
    ⟨pick.1, i3, d2, wc, pick.2⟩

/-- `analyze` on an `Option`al text: `none` models Python `None` or a
non-string argument, which takes the same `if not text or not
isinstance(text, str)` early return as the empty string. -/
def analyzeInput : Option (List Char) → AnalyzeResult
  | none => ⟨"neutral", 0, 0, 0, 0⟩
  | some t => analyze t

/-- The largest per-category keyword count of the text. -/
def maxCounts (t : List Char) (l : List (String × List String)) : ℕ :=
  (l.map (fun p => countKw t p.2)).foldr max 0

/-- The claim's emotion selection, written as the claim reads: the
category with the highest keyword-occurrence count, ties broken
first-seen in category iteration order. -/
def claimedEmotion (text : List Char) : String :=
  let t := pyLower text
  ((emotions.find? (fun p => countKw t p.2 == maxCounts t emotions)).map (·.1)).getD "neutral"

/-- The claim's intensity formula: `min(1, matches / max(1, wc/2))`,
`+0.2` capped at 1 for `!`, a further `+0.3` capped at 1 for `!!`, then
floored at `0.3` for `?`. -/
def specIntensity (text : List Char) : ℚ :=
  let t := pyLower text
  let wc := pyWordCount t
  let m := maxCounts t emotions
  let i0 : ℚ := min 1 ((m : ℚ) / max 1 ((wc : ℚ) / 2))
  let i1 := if occursIn ['!'] t then min 1 (i0 + 2 / 10) else i0
  let i2 := if occursIn ['!', '!'] t then min 1 (i1 + 3 / 10) else i1
  if occursIn ['?'] t then max (3 / 10) i2 else i2

/-- The claim's depth formula: `min(1, wc/20)`, `+0.2` capped at 1 for a
causal connective, `+0.2` capped at 1 for a first-person reflective
verb. -/
def specDepth (text : List Char) : ℚ :=
  let t := pyLower text
  let wc := pyWordCount t
  let d0 : ℚ := min 1 ((wc : ℚ) / 20)
  let d1 := if occursIn "because".toList t || occursIn "since".toList t ||
               occursIn "therefore".toList t then min 1 (d0 + 2 / 10) else d0
  if occursIn "feel".toList t || occursIn "think".toList t ||
     occursIn "believe".toList t then min 1 (d1 + 2 / 10) else d1

theorem pick_foldl_keeps (t : List Char) (l : List (String × List String))
    (acc : String × ℕ) (h : maxCounts t l ≤ acc.2) :
    l.foldl (pickStep t) acc = acc := by
  induction l generalizing acc with
  | nil => rfl
  | cons p rest ih =>
    have hmax : max (countKw t p.2) (maxCounts t rest) ≤ acc.2 := h
    simp only [List.foldl_cons, pickStep]
    rw [if_neg (by omega)]
    exact ih acc (by omega)

theorem pick_foldl_snd (t : List Char) (l : List (String × List String))
    (acc : String × ℕ) :
    (l.foldl (pickStep t) acc).2 = max acc.2 (maxCounts t l) := by
  induction l generalizing acc with
  | nil => simp [maxCounts]
  | cons p rest ih =>
    simp only [List.foldl_cons, pickStep]
    have hstep : maxCounts t (p :: rest) = max (countKw t p.2) (maxCounts t rest) := rfl
    split
    · next hlt =>
      rw [ih]
      simp only [hstep]
      omega
    · next hge =>
      rw [ih]
      simp only [hstep]
      omega

theorem pick_foldl_first (t : List Char) (l : List (String × List String))
    (acc : String × ℕ) (h : acc.2 < maxCounts t l) :
    (l.find? (fun p => countKw t p.2 == maxCounts t l)).map (·.1) =
      some ((l.foldl (pickStep t) acc).1) := by
  induction l generalizing acc with
  | nil => exact absurd h (by simp [maxCounts])
  | cons p rest ih =>
    have hstep : maxCounts t (p :: rest) = max (countKw t p.2) (maxCounts t rest) := rfl
    by_cases hc : countKw t p.2 = maxCounts t (p :: rest)
    · rw [List.find?_cons_of_pos _ (by simpa using hc)]
      simp only [List.foldl_cons, pickStep]
      rw [if_pos (by omega)]
      rw [pick_foldl_keeps t rest _ (by simp only [hstep] at hc ⊢; omega)]
      simp
    · rw [List.find?_cons_of_neg _ (by simpa using hc)]
      have hlt : countKw t p.2 < maxCounts t (p :: rest) := by
        simp only [hstep] at hc ⊢
        omega
      have hrest : maxCounts t (p :: rest) = maxCounts t rest := by
        simp only [hstep] at hlt ⊢
        omega
      simp only [List.foldl_cons, pickStep]
      rw [hrest]
      split
      · next hlt2 =>
        exact ih _ (by omega)
      · next hge =>
        exact ih _ (by rw [← hrest]; omega)

/-! ### Claim theorems: EmotionAnalyzer.analyze -/

/-- C10 counterexample: on `"hello"` no keyword of any category occurs,
so every category (including the first-iterated `joy`) ties at count 0;
first-seen tie-breaking as the claim states it would pick `joy`, but
`analyze` keeps its initial `neutral`. -/
theorem analyze_tie_break_counterexample :
    maxCounts (pyLower "hello".toList) emotions = 0 ∧
    claimedEmotion "hello".toList = "joy" ∧
    (analyze "hello".toList).emotion = "neutral" := by
  decide

/-- C10 as amended: on nonempty text `analyze` returns the first-seen
category attaining the maximal keyword count whenever that maximum is
positive, and `neutral` when no keyword occurs at all; intensity and
depth follow the claimed formulas (`min(1, matches / max(1, wc/2))` with
the `!`/`!!` boosts and the `?` floor; `min(1, wc/20)` with the two
`+0.2` boosts, every step capped at 1); empty or non-string input yields
the neutral zero-intensity result. -/
theorem analyze_formula (text : List Char) :
    (text ≠ [] →
      analyze text =
        ⟨if maxCounts (pyLower text) emotions = 0 then "neutral" else claimedEmotion text,
         specIntensity text, specDepth text, pyWordCount (pyLower text),
         maxCounts (pyLower text) emotions⟩) ∧
    analyzeInput none = ⟨"neutral", 0, 0, 0, 0⟩ ∧
    analyze [] = ⟨"neutral", 0, 0, 0, 0⟩ := by
  refine ⟨?_, rfl, rfl⟩
  intro hne
  cases text with
  | nil => exact absurd rfl hne
  | cons c rest =>
    have hmx : (emotions.foldl (pickStep (pyLower (c :: rest))) ("neutral", 0)).2
        = maxCounts (pyLower (c :: rest)) emotions := by
      rw [pick_foldl_snd]
      omega
    have hfst : (emotions.foldl (pickStep (pyLower (c :: rest))) ("neutral", 0)).1
        = (if maxCounts (pyLower (c :: rest)) emotions = 0 then "neutral"
           else claimedEmotion (c :: rest)) := by
      by_cases h0 : maxCounts (pyLower (c :: rest)) emotions = 0
      · rw [if_pos h0, pick_foldl_keeps _ _ _ (by omega)]
      · rw [if_neg h0]
        have hfind := pick_foldl_first (pyLower (c :: rest)) emotions ("neutral", 0)
          (by omega)
        simp only [claimedEmotion, hfind, Option.getD_some]
    simp only [analyze, specIntensity, specDepth, List.isEmpty_cons, Bool.false_eq_true,
      if_false, hmx, hfst]

/-- Witness for C10: a concrete nonempty text through `analyze_formula`. -/
theorem analyze_formula_witness :
    "i am so sad".toList ≠ ([] : List Char) ∧
    analyze "i am so sad".toList =
      ⟨if maxCounts (pyLower "i am so sad".toList) emotions = 0 then "neutral"
        else claimedEmotion "i am so sad".toList,
       specIntensity "i am so sad".toList, specDepth "i am so sad".toList,
       pyWordCount (pyLower "i am so sad".toList),
       maxCounts (pyLower "i am so sad".toList) emotions⟩ :=
  ⟨by decide, (analyze_formula "i am so sad".toList).1 (by decide)⟩

/-! ### Comfort escalation (`PersonalityAdaptation`) -/

/-- The emotion-to-category folding dict of
`get_comfort_escalation_response` (`.get(emotion, "sadness")`). -/
def comfort_category_map : List (String × String) :=
  [("sadness", "sadness"), ("fear", "anxiety"), ("anxiety", "anxiety"),
   ("anger", "anger")]

def comfort_category (e : String) : String :=
  ((comfort_category_map.find? (fun p => p.1 == e)).map (·.2)).getD "sadness"

/-- `self.comfort_escalation_levels`: three ordered 5-level ladders. -/
def comfort_escalation_levels : List (String × List String) :=
  [("sadness",
    ["I notice you\x27re feeling down. It\x27s okay to feel sad sometimes.",
     "I can see this sadness has been with you for a while. Remember that all emotions are temporary, even when they feel permanent.",
     "You\x27ve been experiencing sadness consistently. While I\x27m here to listen, please consider reaching out to a trusted friend or professional if it becomes overwhelming.",
     "I\x27m concerned about how persistent your sadness has been. Please consider speaking with a mental health professional who can offer proper support.",
     "Your well-being matters deeply. Please consider reaching out to a crisis helpline if you\x27re feeling overwhelmed: Mental Health Helpline: 988 or text HOME to 741741."]),
   ("anxiety",
    ["I notice you seem anxious. Taking deep breaths can sometimes help in the moment.",
     "Your anxiety seems to be recurring. Remember that grounding techniques like naming 5 things you can see might help.",
     "I\x27ve noticed consistent anxiety in our conversations. While I\x27m here to listen, professional support might offer more effective strategies.",
     "Your anxiety seems quite persistent. A mental health professional could provide tools specifically tailored to your experience.",
     "I\x27m concerned about your ongoing anxiety. Please consider reaching out to a crisis helpline if it becomes overwhelming: Mental Health Helpline: 988 or text HOME to 741741."]),
   ("anger",
    ["I can understand why you\x27d feel frustrated by this situation.",
     "I notice anger has been coming up frequently. Sometimes it can be helpful to step back briefly from what\x27s triggering it.",
     "Your anger seems to be a recurring theme. While I\x27m here to listen, addressing the root causes might require additional support.",
     "I notice your anger has been persistent. A professional might help provide strategies for managing these intense feelings.",
     "I\x27m concerned about how these feelings are affecting you. Please consider speaking with someone who specializes in helping people process anger."])]

def levelsFor (cat : String) : List String :=
  ((comfort_escalation_levels.find? (fun p => p.1 == cat)).map (·.2)).getD []

/-- `get_comfort_escalation_response`.  `persistence` is the
`user_data["emotion_persistence"]` mapping restricted to each emotion's
`current_escalation_level` counter (missing field or missing emotion is
`none`, and the inner `.get("current_escalation_level", 0)` default is
folded into the stored `ℕ`). -/
def get_comfort_escalation_response (persistence : List (String × ℕ))
    (emotion : String) : Option String :=
  if emotion ∉ ["sadness", "anxiety", "anger", "fear"] then none
  else
    let cat := comfort_category emotion
    match (persistence.find? (fun p => p.1 == emotion)).map (·.2) with
    | none => some ((levelsFor cat).getD 0 "")
    | some lvl =>
      let lvl' := if lvl ≥ (levelsFor cat).length then (levelsFor cat).length - 1 else lvl
      some ((levelsFor cat).getD lvl' "")

/-! ### Claim theorems: comfort escalation -/

/-- C6: for an emotion in {sadness, anxiety, anger, fear} the comfort
response is the entry of that emotion's ordered 5-level category ladder
(fear folding into anxiety) at the index given by the emotion's recorded
mention count, clamped to the last position; any other emotion yields no
response. -/
theorem comfort_escalation_selects (persistence : List (String × ℕ)) (emotion : String) :
    (emotion ∈ ["sadness", "anxiety", "anger", "fear"] →
      get_comfort_escalation_response persistence emotion =
        some ((levelsFor (comfort_category emotion)).getD
          (min (((persistence.find? (fun p => p.1 == emotion)).map (·.2)).getD 0)
               ((levelsFor (comfort_category emotion)).length - 1)) "")) ∧
    (emotion ∉ ["sadness", "anxiety", "anger", "fear"] →
      get_comfort_escalation_response persistence emotion = none) ∧
    (levelsFor "sadness").length = 5 ∧ (levelsFor "anxiety").length = 5 ∧
    (levelsFor "anger").length = 5 ∧ comfort_category "fear" = "anxiety" := by
  refine ⟨?_, ?_, by decide, by decide, by decide, by decide⟩
  · intro hmem
    simp only [get_comfort_escalation_response, not_not_intro hmem, if_false, not_true]
    cases hfind : (persistence.find? (fun p => p.1 == emotion)).map (·.2) with
    | none => simp
    | some lvl =>
      have h5 : (levelsFor (comfort_category emotion)).length = 5 := by
        fin_cases hmem <;> decide
      rw [h5]
      simp only [Option.getD_some]
      rw [min_def]
      split_ifs <;> first | rfl | omega
  · intro hnot
    simp only [get_comfort_escalation_response]
    rw [if_pos hnot]

/-- Witness for C6: `fear` recorded 7 times folds into the anxiety
ladder and clamps to the last (crisis-line) level. -/
theorem comfort_escalation_selects_witness :
    get_comfort_escalation_response [("fear", 7)] "fear" =
      some ((levelsFor (comfort_category "fear")).getD
        (min ((([(("fear" : String), (7 : ℕ))].find? (fun p => p.1 == "fear")).map (·.2)).getD 0)
             ((levelsFor (comfort_category "fear")).length - 1)) "") :=
  (comfort_escalation_selects [("fear", 7)] "fear").1 (by decide)

/-! ### JSON values, deep merge, dict sanitization -/

/-- A JSON value, as the store's documents hold them.  Objects are
insertion-ordered association lists, matching Python dicts. -/
inductive JVal where
  | str (s : List Char)
  | num (n : ℤ)
  | bool (b : Bool)
  | null
  | arr (items : List JVal)
  | obj (fields : List (List Char × JVal))

section Assoc

variable {kt : Type} {vt : Type} [DecidableEq kt]

/-- `key in d` on a Python dict. -/
def hasKey (k : kt) : List (kt × vt) → Bool
  | [] => false
  | (k', _) :: rest => decide (k' = k) || hasKey k rest

/-- `d[key]` (first binding; dicts built by these operations keep keys
unique). -/
def alookup (k : kt) : List (kt × vt) → Option vt
  | [] => none
  | (k', v) :: rest => if k' = k then some v else alookup k rest

/-- `d[key] = value`: replace in place when the key is present (keeping
its position), append otherwise. -/
def aset (k : kt) (v : vt) (l : List (kt × vt)) : List (kt × vt) :=
  if hasKey k l then l.map (fun p => if p.1 = k then (k, v) else p)
  else l ++ [(k, v)]

theorem alookup_append_self (k : kt) (v : vt) (l : List (kt × vt))
    (h : hasKey k l = false) : alookup k (l ++ [(k, v)]) = some v := by
  induction l with
  | nil => simp [alookup]
  | cons p rest ih =>
    simp only [hasKey, Bool.or_eq_false_iff, decide_eq_false_iff_not] at h
    simp only [List.cons_append, alookup, if_neg h.1]
    exact ih h.2

theorem alookup_map_set (k : kt) (v : vt) (l : List (kt × vt))
    (h : hasKey k l = true) :
    alookup k (l.map (fun p => if p.1 = k then (k, v) else p)) = some v := by
  induction l with
  | nil => simp [hasKey] at h
  | cons p rest ih =>
    simp only [List.map_cons]
    by_cases hp : p.1 = k
    · rw [if_pos hp]
      simp [alookup]
    · rw [if_neg hp]
      have h2 : hasKey k rest = true := by
        simp only [hasKey, Bool.or_eq_true, decide_eq_true_eq] at h
        exact h.resolve_left hp
      simp only [alookup, if_neg hp]
      exact ih h2

theorem alookup_aset (k : kt) (v : vt) (l : List (kt × vt)) :
    alookup k (aset k v l) = some v := by
  simp only [aset]
  split
  · next h => exact alookup_map_set k v l h
  · next h => exact alookup_append_self k v l (by simpa using h)

end Assoc

mutual
/-- `JsonMemoryStore._deep_update` on two dicts (the only shapes the
store calls it with): walk the source items in order; when both the
present value and the new value are dicts, merge recursively, otherwise
overwrite. -/
def deep_update : List (List Char × JVal) → List (List Char × JVal) →
    List (List Char × JVal)
  | target, [] => target
  | target, (k, v) :: rest =>
    deep_update (aset k (merge_value (alookup k target) v) target) rest
termination_by _ source => sizeOf source

/-- `if key in result and isinstance(result[key], dict) and
isinstance(value, dict)`: merge dict-into-dict, otherwise the new value
overwrites. -/
def merge_value : Option JVal → JVal → JVal
  | some (JVal.obj t), JVal.obj s => JVal.obj (deep_update t s)
  | _, v => v
termination_by _ v => sizeOf v
end

theorem deep_update_cons (tgt : List (List Char × JVal)) (k0 : List Char)
    (v : JVal) (rest : List (List Char × JVal)) :
    deep_update tgt ((k0, v) :: rest) =
      deep_update (aset k0 (merge_value (alookup k0 tgt) v) tgt) rest := by
  simp [deep_update]

mutual
/-- The `for key, value in data.items()` loop of
`JsonMemoryStore._sanitize_dict`, building `result` left to right with
`result[safe_key] = ...`. -/
def sanitize_dict_go : List (List Char × JVal) → List (List Char × JVal) →
    List (List Char × JVal)
  | acc, [] => acc
  | acc, (k, v) :: rest =>
    sanitize_dict_go (aset (sanitize_string k) (sanitize_value v) acc) rest
termination_by _ l => sizeOf l

/-- One value of `_sanitize_dict`: dicts recurse, strings are
tag-stripped, everything else — numbers, booleans, null — is kept. -/
def sanitize_value : JVal → JVal
  | JVal.obj d => JVal.obj (sanitize_dict_go [] d)
  | JVal.arr items => JVal.arr (sanitize_items items)
  | JVal.str s => JVal.str (sanitize_string s)
  | v => v
termination_by v => sizeOf v

/-- The list comprehension of `_sanitize_dict`: dict items recurse,
string items are stripped, any other item — including a nested list —
is kept verbatim. -/
def sanitize_items : List JVal → List JVal
  | [] => []
  | JVal.obj d :: rest => JVal.obj (sanitize_dict_go [] d) :: sanitize_items rest
  | JVal.str s :: rest => JVal.str (sanitize_string s) :: sanitize_items rest
  | it :: rest => it :: sanitize_items rest
termination_by l => sizeOf l
end

/-- `JsonMemoryStore._sanitize_dict` on a dict. -/
def sanitize_dict (l : List (List Char × JVal)) : List (List Char × JVal) :=
  sanitize_dict_go [] l

/-! ### The JsonMemoryStore state and its public operations -/

/-- An entry of `permanent_memories.json`. -/
structure MemoryEntry where
  content : List Char
  created_at : ℤ
  updated_at : ℤ

/-- A message of `conversation_history.json`, as `store_message` builds
it. -/
structure Message where
  content : List Char
  timestamp : ℤ
  is_user : Bool
  metadata : List (List Char × JVal)
  word_count : ℕ

/-- The five documents of one user directory.  A file a user directory
lacks reads as the corresponding `_read_json_file` default, which is
this structure's default value for the field. -/
structure UserDocs where
  profile : List (List Char × JVal) := []
  messages : List Message := []
  categories : List (List Char × List (List Char)) := []
  facts_last_updated : Option ℤ := none
  metrics : Metrics := {}
  memories : List (List Char × List MemoryEntry) := []

/-- The store root: `users_index.json` plus one directory per user. -/
structure StoreState where
  index : List String := []
  disk : List (String × UserDocs) := []

/-- Read a user's documents; an absent directory reads as all defaults. -/
def readDocs (safe : String) (st : StoreState) : UserDocs :=
  (alookup safe st.disk).getD {}

/-- Write back (some of) a user's documents; `_write_json_file` creates
the directory as needed. -/
def modifyDocs (safe : String) (f : UserDocs → UserDocs) (st : StoreState) :
    StoreState :=
  { st with disk := aset safe (f (readDocs safe st)) st.disk }

/-- `user_exists`: the index is consulted first; a directory on disk
that the index misses self-heals the index (appended and re-sorted) and
counts as existing. -/
def user_exists (st : StoreState) (uid : String) : Bool × StoreState :=
  match sanitize_user_id uid with
  | .error _ => (false, st)
  | .ok safe =>
    if safe ∈ st.index then (true, st)
    else if (alookup safe st.disk).isSome then
      (true, { st with index := List.insertionSort (· ≤ ·) (st.index ++ [safe]) })
    else (false, st)

/-- The profile `create_user` writes when no initial data is given:
`{"created_at": datetime.now().isoformat()}`. -/
def default_profile (now : ℤ) : List (List Char × JVal) :=
  [("created_at".toList, JVal.num now)]

/-- The five blank documents `create_user` writes. -/
def blank_docs (now : ℤ) (profile : List (List Char × JVal)) : UserDocs :=
  { profile := profile
    messages := []
    categories := []
    facts_last_updated := none
    metrics := { message_count := 0, total_words := 0, first_interaction := some now }
    memories := [] }

/-- The body of `create_user` up to its `except Exception` handler:
presence is decided by the users index alone. -/
def create_user_body (now : ℤ) (st : StoreState) (uid : String)
    (initial : Option (List (List Char × JVal))) : Except String (Bool × StoreState) :=
  match sanitize_user_id uid with
  | .error e => .error e
  | .ok safe =>
    if safe ∈ st.index then .ok (false, st)
    else
      let prof :=
        match initial with
        | some l => if l.isEmpty then default_profile now else sanitize_dict l
        | none => default_profile now
      .ok (true,
        { index := List.insertionSort (· ≤ ·) (st.index ++ [safe])
          disk := aset safe (blank_docs now prof) st.disk })

/-- `create_user`: the broad `except` turns any error — in the pure
model, only the sanitize `ValueError` — into `False` with no writes. -/
def create_user (now : ℤ) (st : StoreState) (uid : String)
    (initial : Option (List (List Char × JVal))) : Bool × StoreState :=
  match create_user_body now st uid initial with
  | .error _ => (false, st)
  | .ok r => r

/-- The claim's reading of `create_user`, modelled from the spec
sentence "false if already present (checked against the index,
self-healed against the directory listing)": presence decided by
`user_exists`. -/
def create_user_spec (now : ℤ) (st : StoreState) (uid : String)
    (initial : Option (List (List Char × JVal))) : Bool × StoreState :=
  match sanitize_user_id uid with
  | .error _ => (false, st)
  | .ok safe =>
    let ex := user_exists st safe
    if ex.1 then (false, ex.2)
    else
      let prof :=
        match initial with
        | some l => if l.isEmpty then default_profile now else sanitize_dict l
        | none => default_profile now
      (true,
        { index := List.insertionSort (· ≤ ·) (ex.2.index ++ [safe])
          disk := aset safe (blank_docs now prof) ex.2.disk })

/-- Python's `messages[-limit:]` applied under
`if len(messages) > limit`: `-0` is `0`, so a zero limit slices nothing
off. -/
def pyTrim (limit : ℕ) (l : List Message) : List Message :=
  if l.length > limit then (if limit = 0 then l else l.drop (l.length - limit))
  else l

/-- The public `update_streak` (sanitize, existence check with
self-heal, then the pure streak machine on the metrics document). -/
def update_streak_op (today : ℤ) (st : StoreState) (uid : String) :
    Option StreakResult × StoreState :=
  match sanitize_user_id uid with
  | .error _ => (none, st)
  | .ok safe =>
    let ex := user_exists st safe
    if !ex.1 then (none, ex.2)
    else
      let r := update_streak today (readDocs safe ex.2).metrics
      (some r.1, modifyDocs safe (fun d => { d with metrics := r.2 }) ex.2)

/-- `_update_message_metrics`: counters and dates are updated on a local
copy of the metrics document, `update_streak` is invoked for user
messages (reading and writing the document itself), and then the local
copy is written — overwriting the streak fields `update_streak` just
wrote, exactly as the source does. -/
def update_message_metrics (today : ℤ) (safe : String) (entry : Message)
    (st : StoreState) : StoreState :=
  let m0 := (readDocs safe st).metrics
  let m1 :=
    { m0 with
      message_count := m0.message_count + 1
      total_words := m0.total_words + entry.word_count
      first_interaction := some (m0.first_interaction.getD entry.timestamp)
      last_interaction := some entry.timestamp
      interaction_dates :=
        if entry.timestamp ∈ m0.interaction_dates then m0.interaction_dates
        else List.insertionSort (· ≤ ·) (m0.interaction_dates ++ [entry.timestamp]) }
  let st1 := if entry.is_user then (update_streak_op today st safe).2 else st
  modifyDocs safe (fun d => { d with metrics := m1 }) st1

/-- The `message_entry` dict `store_message` builds: sanitized content,
the given timestamp or now, sanitized metadata (`if not metadata` treats
`None` and `{}` alike), and the recomputed word count. -/
def message_entry (now : ℤ) (message : List Char) (isUser : Bool) (ts : Option ℤ)
    (md : Option (List (List Char × JVal))) : Message :=
  { content := sanitize_string message
    timestamp := ts.getD now
    is_user := isUser
    metadata :=
      match md with
      | none => []
      | some m => if m.isEmpty then [] else sanitize_dict m
    word_count := pyWordCount (sanitize_string message) }

/-- The body of `store_message`: sanitize, build the entry, create the
user if absent, append, trim to the history limit, update metrics, write
the history. -/
def store_message_body (now today : ℤ) (limit : ℕ) (st : StoreState) (uid : String)
    (message : List Char) (isUser : Bool) (ts : Option ℤ)
    (md : Option (List (List Char × JVal))) : Except String (Bool × StoreState) :=
  match sanitize_user_id uid with
  | .error e => .error e
  | .ok safe =>
    let entry : Message := message_entry now message isUser ts md
    let ex := user_exists st safe
    let st2 := if ex.1 then ex.2 else (create_user now ex.2 safe none).2
    let hist2 := pyTrim limit ((readDocs safe st2).messages ++ [entry])
    let st3 := update_message_metrics today safe entry st2
    .ok (true, modifyDocs safe (fun d => { d with messages := hist2 }) st3)

def store_message (now today : ℤ) (limit : ℕ) (st : StoreState) (uid : String)
    (message : List Char) (isUser : Bool) (ts : Option ℤ)
    (md : Option (List (List Char × JVal))) : Bool × StoreState :=
  match store_message_body now today limit st uid message isUser ts md with
  | .error _ => (false, st)
  | .ok r => r

/-- `get_recent_messages`: empty for unknown users; `limit` applies only
when it is a positive int (`if limit and isinstance(limit, int) and
limit > 0`), slicing the trailing `limit` messages. -/
def get_recent_messages (st : StoreState) (uid : String) (limit : Option ℤ) :
    List Message :=
  match sanitize_user_id uid with
  | .error _ => []
  | .ok safe =>
    let ex := user_exists st safe
    if !ex.1 then []
    else
      let msgs := (readDocs safe ex.2).messages
      match limit with
      | some n => if 0 < n then msgs.drop (msgs.length - n.toNat) else msgs
      | none => msgs

/-- `get_user_profile`: `{}` for unknown users or on any error. -/
def get_user_profile (st : StoreState) (uid : String) : List (List Char × JVal) :=
  match sanitize_user_id uid with
  | .error _ => []
  | .ok safe =>
    let ex := user_exists st safe
    if !ex.1 then [] else (readDocs safe ex.2).profile

/-- The body of `store_user_profile`: sanitize the data, create the user
if absent, deep-merge into the existing profile, write. -/
def store_user_profile_body (now : ℤ) (st : StoreState) (uid : String)
    (data : List (List Char × JVal)) : Except String (Bool × StoreState) :=
  match sanitize_user_id uid with
  | .error e => .error e
  | .ok safe =>
    let safeData := sanitize_dict data
    let ex := user_exists st safe
    let st2 := if ex.1 then ex.2 else (create_user now ex.2 safe none).2
    let updated := deep_update (readDocs safe st2).profile safeData
    .ok (true, modifyDocs safe (fun d => { d with profile := updated }) st2)

def store_user_profile (now : ℤ) (st : StoreState) (uid : String)
    (data : List (List Char × JVal)) : Bool × StoreState :=
  match store_user_profile_body now st uid data with
  | .error _ => (false, st)
  | .ok r => r

/-- The category update of `store_user_fact`: initialize the (sanitized)
category when absent, then append the (sanitized) value only when it is
not already in the category's list. -/
def fact_categories_step (t v : List Char)
    (cats0 : List (List Char × List (List Char))) :
    List (List Char × List (List Char)) :=
  let cats1 := if hasKey t cats0 then cats0 else cats0 ++ [(t, [])]
  let cur := (alookup t cats1).getD []
  if v ∈ cur then cats1 else aset t (cur ++ [v]) cats1

/-- The body of `store_user_fact`: sanitize the category and the value,
create the user if absent, initialize the category, append the value
only when absent, stamp `last_updated`, write. -/
def store_user_fact_body (now : ℤ) (st : StoreState) (uid : String)
    (fact_type fact_value : List Char) : Except String (Bool × StoreState) :=
  match sanitize_user_id uid with
  | .error e => .error e
  | .ok safe =>
    let t := sanitize_string fact_type
    let v := sanitize_string fact_value
    let ex := user_exists st safe
    let st2 := if ex.1 then ex.2 else (create_user now ex.2 safe none).2
    let cats2 := fact_categories_step t v (readDocs safe st2).categories
    .ok (true, modifyDocs safe
      (fun d => { d with categories := cats2, facts_last_updated := some now }) st2)

def store_user_fact (now : ℤ) (st : StoreState) (uid : String)
    (fact_type fact_value : List Char) : Bool × StoreState :=
  match store_user_fact_body now st uid fact_type fact_value with
  | .error _ => (false, st)
  | .ok r => r

/-! ### Claim theorems: sanitize errors and create_user -/

/-- C5 counterexample: on the identifier `"!!!"` (no valid character
after stripping) sanitization raises internally —
`create_user_body` errors — but the public `create_user` catches it in
its broad `except Exception` handler and returns `False` with the store
untouched, and `get_user_profile` returns `{}`; the error is never
propagated to the caller. -/
theorem sanitize_error_swallowed_counterexample :
    create_user_body 0 {} "!!!" none =
      Except.error "User ID contains no valid characters" ∧
    create_user 0 ({} : StoreState) "!!!" none = (false, {}) ∧
    store_message_body 0 0 100 {} "!!!" "hi".toList true none none =
      Except.error "User ID contains no valid characters" ∧
    store_message 0 0 100 ({} : StoreState) "!!!" "hi".toList true none none =
      (false, {}) ∧
    get_user_profile {} "!!!" = [] := by
  refine ⟨rfl, rfl, rfl, rfl, rfl⟩

/-- C5 as amended: a raw identifier with no character in `[A-Za-z0-9_-]`
after stripping makes `_sanitize_user_id` raise
`ValueError("User ID contains no valid characters")`, but every public
storage operation catches it like any other internal error and returns
its safe default (`False`, `{}`), leaving the store unchanged; no
storage-layer exception crosses the boundary. -/
theorem sanitize_error_safe_defaults (now today : ℤ) (limit : ℕ) (st : StoreState)
    (raw : String) (data : List (List Char × JVal)) (t v msg : List Char)
    (h : ((pyStrip raw.toList).filter isIdChar).isEmpty = true) :
    sanitize_user_id raw = .error "User ID contains no valid characters" ∧
    create_user_body now st raw none =
      .error "User ID contains no valid characters" ∧
    create_user now st raw none = (false, st) ∧
    store_message now today limit st raw msg true none none = (false, st) ∧
    get_user_profile st raw = [] ∧
    store_user_profile now st raw data = (false, st) ∧
    store_user_fact now st raw t v = (false, st) := by
  have hs : sanitize_user_id raw = .error "User ID contains no valid characters" := by
    simp only [sanitize_user_id]
    rw [if_pos h]
  refine ⟨hs, ?_, ?_, ?_, ?_, ?_, ?_⟩ <;>
    simp [create_user, create_user_body, store_message, store_message_body,
      get_user_profile, store_user_profile, store_user_profile_body,
      store_user_fact, store_user_fact_body, hs]

/-- Witness for C5: the path-traversal probe of the spec,
`"../../etc/passwd"`, strips `.` and `/` away... it keeps `etcpasswd`,
so use `"!!!"`, which sanitizes to nothing. -/
theorem sanitize_error_safe_defaults_witness :
    ((pyStrip "!!!".toList).filter isIdChar).isEmpty = true ∧
    create_user 0 ({} : StoreState) "!!!" none = (false, {}) :=
  ⟨by decide, (sanitize_error_safe_defaults 0 0 100 {} "!!!" [] [] [] []
    (by decide)).2.2.1⟩

/-- C7 counterexample: a user directory on disk without an index entry
counts as present for `user_exists`, but `create_user` consults only the
index and happily re-creates the user (returning `True`), where the
claim requires `False`; the spec-modelled `create_user_spec`, which
checks presence through `user_exists`, returns `False`. -/
theorem create_user_ignores_disk_counterexample :
    (user_exists (StoreState.mk [] [("alice", blank_docs 0 (default_profile 0))])
      "alice").1 = true ∧
    (create_user 1 (StoreState.mk [] [("alice", blank_docs 0 (default_profile 0))])
      "alice" none).1 = true ∧
    (create_user_spec 1 (StoreState.mk [] [("alice", blank_docs 0 (default_profile 0))])
      "alice" none).1 = false := by
  refine ⟨by decide, by decide, by decide⟩

/-- C7 as amended: for an identifier that sanitizes to itself,
`create_user` returns `False` exactly when the sanitized id is in the
users index — a directory on disk without an index entry does not count
as present and its documents are overwritten — and otherwise writes the
five blank documents (profile from the initial data or the `created_at`
stub, empty history, empty facts, zeroed metrics, empty memories) and
inserts the id keeping the index sorted. -/
theorem create_user_index_semantics (now : ℤ) (st : StoreState) (uid : String)
    (initial : Option (List (List Char × JVal)))
    (hsan : sanitize_user_id uid = .ok uid) :
    (uid ∈ st.index → create_user now st uid initial = (false, st)) ∧
    (uid ∉ st.index →
      (create_user now st uid initial).1 = true ∧
      (create_user now st uid initial).2.index =
        List.insertionSort (· ≤ ·) (st.index ++ [uid]) ∧
      List.Sorted (· ≤ ·) (create_user now st uid initial).2.index ∧
      ∃ prof, alookup uid (create_user now st uid initial).2.disk =
          some (blank_docs now prof) ∧
        (initial = none → prof = default_profile now)) := by
  constructor
  · intro hmem
    simp [create_user, create_user_body, hsan, hmem]
  · intro hmem
    have hbody : create_user now st uid initial = (true,
        { index := List.insertionSort (· ≤ ·) (st.index ++ [uid])
          disk := aset uid (blank_docs now
            (match initial with
             | some l => if l.isEmpty then default_profile now else sanitize_dict l
             | none => default_profile now)) st.disk }) := by
      simp [create_user, create_user_body, hsan, hmem]
    rw [hbody]
    exact ⟨rfl, rfl, List.sorted_insertionSort _ _,
      ⟨_, alookup_aset _ _ _, fun hnone => by simp [hnone]⟩⟩

/-- Witness for C7: creating `alice` in an empty store succeeds. -/
theorem create_user_index_semantics_witness :
    sanitize_user_id "alice" = .ok "alice" ∧
    ("alice" : String) ∉ ({} : StoreState).index ∧
    (create_user 0 ({} : StoreState) "alice" none).1 = true :=
  ⟨rfl, by decide,
   ((create_user_index_semantics 0 {} "alice" none rfl).2 (by decide)).1⟩

/-! ### Claim theorems: fact idempotence -/

theorem alookup_none_of_hasKey_false {kt vt : Type} [DecidableEq kt]
    (k : kt) (l : List (kt × vt)) (h : hasKey k l = false) : alookup k l = none := by
  induction l with
  | nil => rfl
  | cons p rest ih =>
    simp only [hasKey, Bool.or_eq_false_iff, decide_eq_false_iff_not] at h
    simp only [alookup, if_neg h.1]
    exact ih h.2

theorem hasKey_of_alookup_some {kt vt : Type} [DecidableEq kt]
    {k : kt} {l : List (kt × vt)} {x : vt} (h : alookup k l = some x) :
    hasKey k l = true := by
  induction l with
  | nil => simp [alookup] at h
  | cons p rest ih =>
    simp only [alookup] at h
    simp only [hasKey, Bool.or_eq_true, decide_eq_true_eq]
    by_cases hp : p.1 = k
    · exact Or.inl hp
    · rw [if_neg hp] at h
      exact Or.inr (ih h)

theorem alookup_some_of_hasKey {kt vt : Type} [DecidableEq kt]
    {k : kt} {l : List (kt × vt)} (h : hasKey k l = true) :
    ∃ x, alookup k l = some x := by
  induction l with
  | nil => simp [hasKey] at h
  | cons p rest ih =>
    simp only [hasKey, Bool.or_eq_true, decide_eq_true_eq] at h
    by_cases hp : p.1 = k
    · exact ⟨p.2, by simp [alookup, hp]⟩
    · obtain ⟨x, hx⟩ := ih (h.resolve_left hp)
      exact ⟨x, by simp [alookup, hp, hx]⟩

/-- What `store_user_fact`'s category update leaves under the category
key: the old list when the value was already there, the old list with
the value appended otherwise. -/
theorem fact_step_alookup (t v : List Char)
    (c : List (List Char × List (List Char))) :
    alookup t (fact_categories_step t v c) =
      some (if v ∈ (alookup t c).getD [] then (alookup t c).getD []
            else (alookup t c).getD [] ++ [v]) := by
  simp only [fact_categories_step]
  by_cases hk : hasKey t c
  · rw [if_pos hk]
    obtain ⟨x, hx⟩ := alookup_some_of_hasKey hk
    rw [hx]
    simp only [Option.getD_some]
    by_cases hv : v ∈ x
    · rw [if_pos hv, if_pos hv, hx]
    · rw [if_neg hv, if_neg hv, alookup_aset]
  · rw [if_neg hk]
    have hnone : alookup t c = none := alookup_none_of_hasKey_false t c (by simpa using hk)
    have happ : alookup t (c ++ [(t, [])]) = some ([] : List (List Char)) :=
      alookup_append_self t [] c (by simpa using hk)
    rw [happ, hnone]
    simp only [Option.getD_some, Option.getD_none]
    rw [if_neg (List.not_mem_nil v), if_neg (List.not_mem_nil v), List.nil_append,
      alookup_aset]

/-- Repeating `store_user_fact`'s category update is a no-op. -/
theorem fact_step_idem (t v : List Char) (c : List (List Char × List (List Char))) :
    fact_categories_step t v (fact_categories_step t v c) =
      fact_categories_step t v c := by
  have h1 := fact_step_alookup t v c
  have hvL : v ∈ (if v ∈ (alookup t c).getD [] then (alookup t c).getD []
      else (alookup t c).getD [] ++ [v]) := by
    split
    · assumption
    · simp
  have hk1 : hasKey t (fact_categories_step t v c) = true := hasKey_of_alookup_some h1
  conv_lhs => rw [fact_categories_step]
  rw [if_pos hk1, h1]
  simp only [Option.getD_some]
  rw [if_pos hvL]

theorem readDocs_modifyDocs (safe : String) (f : UserDocs → UserDocs) (st : StoreState) :
    readDocs safe (modifyDocs safe f st) = f (readDocs safe st) := by
  simp [readDocs, modifyDocs, alookup_aset]

/-- `store_user_fact` for an indexed, self-sanitized user id: succeeds
and rewrites exactly the facts document. -/
theorem store_user_fact_eq (now : ℤ) (st : StoreState) (uid : String) (t v : List Char)
    (hsan : sanitize_user_id uid = .ok uid) (hmem : uid ∈ st.index) :
    store_user_fact now st uid t v =
      (true, modifyDocs uid (fun d =>
        { d with
          categories := fact_categories_step (sanitize_string t) (sanitize_string v)
            (readDocs uid st).categories
          facts_last_updated := some now }) st) := by
  simp [store_user_fact, store_user_fact_body, user_exists, hsan, hmem]

/-- C9: for an existing user, storing the same `(category, value)` fact
twice leaves the categories document of the second call identical to
that of the first (the second call is a no-op on the category's fact
list), and when the value occurred at most once before, exactly one
entry for it remains in the category. -/
theorem store_user_fact_idempotent (now now2 : ℤ) (st : StoreState) (uid : String)
    (t v : List Char) (hsan : sanitize_user_id uid = .ok uid) (hmem : uid ∈ st.index) :
    (readDocs uid (store_user_fact now2 (store_user_fact now st uid t v).2
        uid t v).2).categories =
      (readDocs uid (store_user_fact now st uid t v).2).categories ∧
    (((alookup (sanitize_string t) (readDocs uid st).categories).getD []).count
        (sanitize_string v) ≤ 1 →
      ((alookup (sanitize_string t)
          (readDocs uid (store_user_fact now2 (store_user_fact now st uid t v).2
            uid t v).2).categories).getD []).count (sanitize_string v) = 1) := by
  have h1 := store_user_fact_eq now st uid t v hsan hmem
  have hmem2 : uid ∈ (store_user_fact now st uid t v).2.index := by
    rw [h1]
    exact hmem
  have h2 := store_user_fact_eq now2 (store_user_fact now st uid t v).2 uid t v hsan hmem2
  have hcat1 : (readDocs uid (store_user_fact now st uid t v).2).categories =
      fact_categories_step (sanitize_string t) (sanitize_string v)
        (readDocs uid st).categories := by
    rw [h1, readDocs_modifyDocs]
  have hcat2 : (readDocs uid (store_user_fact now2 (store_user_fact now st uid t v).2
      uid t v).2).categories =
      fact_categories_step (sanitize_string t) (sanitize_string v)
        (readDocs uid (store_user_fact now st uid t v).2).categories := by
    rw [h2, readDocs_modifyDocs]
  constructor
  · rw [hcat2, hcat1, fact_step_idem]
  · intro hcnt
    rw [hcat2, hcat1, fact_step_idem, fact_step_alookup]
    simp only [Option.getD_some]
    by_cases hv : sanitize_string v ∈
        (alookup (sanitize_string t) (readDocs uid st).categories).getD []
    · rw [if_pos hv]
      have hpos : 0 < ((alookup (sanitize_string t)
          (readDocs uid st).categories).getD []).count (sanitize_string v) :=
        List.count_pos_iff.mpr hv
      omega
    · rw [if_neg hv, List.count_append]
      have h0 : ((alookup (sanitize_string t)
          (readDocs uid st).categories).getD []).count (sanitize_string v) = 0 :=
        List.count_eq_zero.mpr hv
      simp [h0, List.count_singleton]

/-- Witness for C9: storing the fact `("likes", "tea")` twice for a
fresh `alice` leaves exactly one `tea` under `likes`. -/
theorem store_user_fact_idempotent_witness :
    ((alookup (sanitize_string "likes".toList)
        (readDocs "alice" (create_user 0 ({} : StoreState) "alice" none).2).categories).getD
        []).count (sanitize_string "tea".toList) ≤ 1 ∧
    ((alookup (sanitize_string "likes".toList)
        (readDocs "alice"
          (store_user_fact 1
            (store_user_fact 0 (create_user 0 ({} : StoreState) "alice" none).2
              "alice" "likes".toList "tea".toList).2
            "alice" "likes".toList "tea".toList).2).categories).getD
        []).count (sanitize_string "tea".toList) = 1 :=
  ⟨by decide,
   (store_user_fact_idempotent 0 1 (create_user 0 ({} : StoreState) "alice" none).2
      "alice" "likes".toList "tea".toList rfl (by decide)).2 (by decide)⟩

/-! ### Claim theorems: profile round-trip -/

theorem tagFree_of_no_gt (l : List Char) (h : l.contains '>' = false) :
    tagFree l = true := by
  induction l with
  | nil => rfl
  | cons c rest ih =>
    simp only [List.contains_cons, Bool.or_eq_false_iff] at h
    simp only [tagFree, Bool.and_eq_true]
    refine ⟨?_, ih h.2⟩
    split
    · simpa using h.2
    · rfl

/-- The sanitizer's output never has a `>` after a `<`: every removed
match `<[^>]*>` swallows its `>`, and a `<` survives only when no `>`
follows at all. -/
theorem tagFree_sanitize_string (l : List Char) :
    tagFree (sanitize_string l) = true := by
  induction l using sanitize_string.induct with
  | case1 => simp [sanitize_string, tagFree]
  | case2 rest hcont ih =>
    have hmem : '>' ∈ rest := by simpa using hcont
    simpa [sanitize_string, hcont, hmem] using ih
  | case3 rest hnc =>
    have hnc2 : rest.contains '>' = false := by simpa using hnc
    have hnm : '>' ∉ rest := by simpa using hnc2
    simpa [sanitize_string, tagFree, hnc2, hnm] using tagFree_of_no_gt rest hnc2
  | case4 c rest hc ih => simpa [sanitize_string, tagFree, hc] using ih

mutual
/-- The string values of a dict that `_sanitize_dict` rewrites: values
of keys (recursively through nested dicts) and string items directly
inside list values.  Strings nested deeper (a list inside a list) are
out of the sanitizer's reach and are deliberately not collected. -/
def strs_of_dict : List (List Char × JVal) → List (List Char)
  | [] => []
  | (_, v) :: rest => strs_of_val v ++ strs_of_dict rest
termination_by l => sizeOf l

def strs_of_val : JVal → List (List Char)
  | JVal.str s => [s]
  | JVal.obj d => strs_of_dict d
  | JVal.arr items => strs_of_items items
  | _ => []
termination_by v => sizeOf v

def strs_of_items : List JVal → List (List Char)
  | [] => []
  | JVal.str s :: rest => s :: strs_of_items rest
  | JVal.obj d :: rest => strs_of_dict d ++ strs_of_items rest
  | _ :: rest => strs_of_items rest
termination_by l => sizeOf l
end

theorem strs_of_dict_append (l1 l2 : List (List Char × JVal)) :
    strs_of_dict (l1 ++ l2) = strs_of_dict l1 ++ strs_of_dict l2 := by
  induction l1 with
  | nil => simp [strs_of_dict]
  | cons p rest ih =>
    obtain ⟨a, b⟩ := p
    simp only [List.cons_append, strs_of_dict, ih, List.append_assoc]

theorem strs_of_map_set (k : List Char) (v : JVal) (acc : List (List Char × JVal))
    (s : List Char) :
    s ∈ strs_of_dict (acc.map (fun p => if p.1 = k then (k, v) else p)) →
      s ∈ strs_of_val v ∨ s ∈ strs_of_dict acc := by
  induction acc with
  | nil => intro hs; simp [strs_of_dict] at hs
  | cons q rest ih =>
    intro hs
    obtain ⟨a, b⟩ := q
    simp only [List.map_cons] at hs
    by_cases hp : (a, b).1 = k
    · rw [if_pos hp] at hs
      simp only [strs_of_dict, List.mem_append] at hs
      rcases hs with hs | hs
      · exact Or.inl hs
      · rcases ih hs with h | h
        · exact Or.inl h
        · exact Or.inr (by simp [strs_of_dict, h])
    · rw [if_neg hp] at hs
      simp only [strs_of_dict, List.mem_append] at hs
      rcases hs with hs | hs
      · exact Or.inr (by simp [strs_of_dict, hs])
      · rcases ih hs with h | h
        · exact Or.inl h
        · exact Or.inr (by simp [strs_of_dict, h])

theorem strs_of_dict_aset (k : List Char) (v : JVal) (acc : List (List Char × JVal))
    (s : List Char) (hs : s ∈ strs_of_dict (aset k v acc)) :
    s ∈ strs_of_val v ∨ s ∈ strs_of_dict acc := by
  simp only [aset] at hs
  split at hs
  · exact strs_of_map_set k v acc s hs
  · rw [strs_of_dict_append] at hs
    simp only [List.mem_append, strs_of_dict, List.append_nil] at hs
    rcases hs with hs | hs
    · exact Or.inr hs
    · exact Or.inl hs

/-- Every string value `_sanitize_dict` rewrites comes out tag-free. -/
theorem sanitize_dict_go_strs_tagFree :
    (∀ (acc l : List (List Char × JVal)),
      (∀ s ∈ strs_of_dict acc, tagFree s = true) →
      ∀ s ∈ strs_of_dict (sanitize_dict_go acc l), tagFree s = true) := by
  have main := sanitize_dict_go.induct
    (fun acc l => (∀ s ∈ strs_of_dict acc, tagFree s = true) →
      ∀ s ∈ strs_of_dict (sanitize_dict_go acc l), tagFree s = true)
    (fun v => ∀ s ∈ strs_of_val (sanitize_value v), tagFree s = true)
    (fun items => ∀ s ∈ strs_of_items (sanitize_items items), tagFree s = true)
  apply main
  · intro acc hacc s hs
    exact hacc s (by simpa [sanitize_dict_go] using hs)
  · intro acc k v rest ih2 ih1 hacc s hs
    rw [show sanitize_dict_go acc ((k, v) :: rest) =
      sanitize_dict_go (aset (sanitize_string k) (sanitize_value v) acc) rest
      from by simp [sanitize_dict_go]] at hs
    refine ih1 ?_ s hs
    intro s2 hs2
    rcases strs_of_dict_aset _ _ _ _ hs2 with h | h
    · exact ih2 s2 h
    · exact hacc s2 h
  · intro d ih s hs
    rw [show sanitize_value (JVal.obj d) = JVal.obj (sanitize_dict_go [] d)
      from by simp [sanitize_value]] at hs
    exact ih (by intro s2 hs2; simp [strs_of_dict] at hs2) s
      (by simpa [strs_of_val] using hs)
  · intro items ih s hs
    rw [show sanitize_value (JVal.arr items) = JVal.arr (sanitize_items items)
      from by simp [sanitize_value]] at hs
    exact ih s (by simpa [strs_of_val] using hs)
  · intro s0 s hs
    rw [show sanitize_value (JVal.str s0) = JVal.str (sanitize_string s0)
      from by simp [sanitize_value]] at hs
    simp only [strs_of_val, List.mem_singleton] at hs
    subst hs
    exact tagFree_sanitize_string s0
  · intro v hobj harr hstr s hs
    cases v with
    | obj d => exact absurd rfl (hobj d)
    | arr items => exact absurd rfl (harr items)
    | str s0 => exact absurd rfl (hstr s0)
    | num n => simp [sanitize_value, strs_of_val] at hs
    | bool b => simp [sanitize_value, strs_of_val] at hs
    | null => simp [sanitize_value, strs_of_val] at hs
  · intro s hs
    simp [sanitize_items, strs_of_items] at hs
  · intro d rest ihd ihrest s hs
    rw [show sanitize_items (JVal.obj d :: rest) =
      JVal.obj (sanitize_dict_go [] d) :: sanitize_items rest
      from by simp [sanitize_items]] at hs
    simp only [strs_of_items, List.mem_append] at hs
    rcases hs with h | h
    · exact ihd (by intro s2 hs2; simp [strs_of_dict] at hs2) s h
    · exact ihrest s h
  · intro s0 rest ih s hs
    rw [show sanitize_items (JVal.str s0 :: rest) =
      JVal.str (sanitize_string s0) :: sanitize_items rest
      from by simp [sanitize_items]] at hs
    simp only [strs_of_items, List.mem_cons] at hs
    rcases hs with h | h
    · subst h
      exact tagFree_sanitize_string s0
    · exact ih s h
  · intro it rest hobj hstr ih s hs
    have heq : sanitize_items (it :: rest) = it :: sanitize_items rest := by
      cases it with
      | obj d => exact absurd rfl (hobj d)
      | str s0 => exact absurd rfl (hstr s0)
      | arr items => simp [sanitize_items]
      | num n => simp [sanitize_items]
      | bool b => simp [sanitize_items]
      | null => simp [sanitize_items]
    rw [heq] at hs
    have hstrs : strs_of_items (it :: sanitize_items rest) =
        strs_of_items (sanitize_items rest) := by
      cases it with
      | obj d => exact absurd rfl (hobj d)
      | str s0 => exact absurd rfl (hstr s0)
      | arr items => simp [strs_of_items]
      | num n => simp [strs_of_items]
      | bool b => simp [strs_of_items]
      | null => simp [strs_of_items]
    rw [hstrs] at hs
    exact ih s hs

theorem hasKey_aset_self {kt vt : Type} [DecidableEq kt] (k : kt) (v : vt)
    (l : List (kt × vt)) : hasKey k (aset k v l) = true :=
  hasKey_of_alookup_some (alookup_aset k v l)

theorem hasKey_map_set {kt vt : Type} [DecidableEq kt] (k k2 : kt) (v : vt)
    (l : List (kt × vt)) (h : hasKey k l = true) :
    hasKey k (l.map (fun p => if p.1 = k2 then (k2, v) else p)) = true := by
  induction l with
  | nil => simp [hasKey] at h
  | cons p rest ih =>
    simp only [hasKey, Bool.or_eq_true, decide_eq_true_eq] at h
    simp only [List.map_cons]
    by_cases hp : p.1 = k2
    · rw [if_pos hp]
      simp only [hasKey, Bool.or_eq_true, decide_eq_true_eq]
      rcases h with h | h
      · exact Or.inl (hp.symm.trans h)
      · exact Or.inr (ih h)
    · rw [if_neg hp]
      simp only [hasKey, Bool.or_eq_true, decide_eq_true_eq]
      rcases h with h | h
      · exact Or.inl h
      · exact Or.inr (ih h)

theorem hasKey_append_left {kt vt : Type} [DecidableEq kt] (k : kt)
    (l1 l2 : List (kt × vt)) (h : hasKey k l1 = true) :
    hasKey k (l1 ++ l2) = true := by
  induction l1 with
  | nil => simp [hasKey] at h
  | cons p rest ih =>
    simp only [hasKey, Bool.or_eq_true, decide_eq_true_eq] at h
    simp only [List.cons_append, hasKey, Bool.or_eq_true, decide_eq_true_eq]
    rcases h with h | h
    · exact Or.inl h
    · exact Or.inr (ih h)

theorem hasKey_aset_mono {kt vt : Type} [DecidableEq kt] (k k2 : kt) (v : vt)
    (l : List (kt × vt)) (h : hasKey k l = true) :
    hasKey k (aset k2 v l) = true := by
  simp only [aset]
  split
  · exact hasKey_map_set k k2 v l h
  · exact hasKey_append_left k l [(k2, v)] h

/-- Keys already in the merge target survive `_deep_update`. -/
theorem hasKey_deep_update_left (src : List (List Char × JVal)) :
    ∀ (tgt : List (List Char × JVal)) (k : List Char), hasKey k tgt = true →
      hasKey k (deep_update tgt src) = true := by
  induction src with
  | nil =>
    intro tgt k h
    simpa [deep_update] using h
  | cons p rest ih =>
    intro tgt k h
    obtain ⟨k0, v⟩ := p
    rw [deep_update_cons]
    exact ih _ k (hasKey_aset_mono _ _ _ _ h)

/-- Every key of the merge source ends up in the `_deep_update` result. -/
theorem hasKey_deep_update_right (src : List (List Char × JVal)) :
    ∀ (tgt : List (List Char × JVal)) (k : List Char), hasKey k src = true →
      hasKey k (deep_update tgt src) = true := by
  induction src with
  | nil =>
    intro tgt k h
    simp [hasKey] at h
  | cons p rest ih =>
    intro tgt k h
    obtain ⟨k0, v⟩ := p
    rw [deep_update_cons]
    simp only [hasKey, Bool.or_eq_true, decide_eq_true_eq] at h
    rcases h with h | h
    · subst h
      exact hasKey_deep_update_left rest _ k0 (hasKey_aset_self _ _ _)
    · exact ih _ k h

/-- `store_user_profile` for an indexed, self-sanitized user id:
succeeds and rewrites exactly the profile document with the deep merge
of the sanitized data into the prior profile. -/
theorem store_user_profile_eq (now : ℤ) (st : StoreState) (uid : String)
    (data : List (List Char × JVal)) (hsan : sanitize_user_id uid = .ok uid)
    (hmem : uid ∈ st.index) :
    store_user_profile now st uid data =
      (true, modifyDocs uid (fun d =>
        { d with
          profile := deep_update (readDocs uid st).profile (sanitize_dict data) })
        st) := by
  simp [store_user_profile, store_user_profile_body, user_exists, hsan, hmem]

/-- C8 counterexample: a string nested one list deeper than the
sanitizer reaches (a list inside a list) survives `store_user_profile`
with its `<b>` markup intact and is returned verbatim by
`get_user_profile`, where the claim requires every markup-bearing string
value to be stripped. -/
theorem profile_nested_tag_counterexample :
    alookup "a".toList
      (get_user_profile
        (store_user_profile 1 (create_user 0 ({} : StoreState) "alice" none).2 "alice"
          [("a".toList, JVal.arr [JVal.arr [JVal.str "<b>".toList]])]).2
        "alice") =
      some (JVal.arr [JVal.arr [JVal.str "<b>".toList]]) ∧
    tagFree "<b>".toList = false := by
  constructor
  · simp [create_user, create_user_body, store_user_profile, store_user_profile_body,
      get_user_profile, user_exists, sanitize_user_id, readDocs, modifyDocs,
      blank_docs, default_profile, sanitize_dict, sanitize_dict_go, sanitize_value,
      sanitize_items, sanitize_string, deep_update, merge_value, aset, hasKey, alookup,
      pyStrip, isIdChar]
  · decide

/-- C8 as amended: for an existing user, `store_user_profile` followed
by `get_user_profile` returns the deep merge of the sanitized written
data into the prior profile (nested mappings merge key-by-key
recursively, non-mapping values overwrite); every top-level key of the
written data appears in the result, prior keys survive, and every
string value within the sanitizer's reach — dict values at any nesting
of dicts, and strings directly inside list values — is stripped
tag-free (strings nested in lists of lists pass through unchanged). -/
theorem profile_roundtrip_deep_merge (now : ℤ) (st : StoreState) (uid : String)
    (data : List (List Char × JVal)) (hsan : sanitize_user_id uid = .ok uid)
    (hmem : uid ∈ st.index) :
    get_user_profile (store_user_profile now st uid data).2 uid =
      deep_update (readDocs uid st).profile (sanitize_dict data) ∧
    (∀ k, hasKey k (sanitize_dict data) = true →
      hasKey k (get_user_profile (store_user_profile now st uid data).2 uid) = true) ∧
    (∀ k, hasKey k (readDocs uid st).profile = true →
      hasKey k (get_user_profile (store_user_profile now st uid data).2 uid) = true) ∧
    (∀ s, s ∈ strs_of_dict (sanitize_dict data) → tagFree s = true) := by
  have hstep := store_user_profile_eq now st uid data hsan hmem
  have hget : get_user_profile (store_user_profile now st uid data).2 uid =
      deep_update (readDocs uid st).profile (sanitize_dict data) := by
    rw [hstep]
    have hmem2 : uid ∈ (modifyDocs uid (fun d =>
        { d with
          profile := deep_update (readDocs uid st).profile (sanitize_dict data) })
        st).index := hmem
    simp only [get_user_profile, user_exists, hsan, hmem2, if_pos, Bool.not_true,
      Bool.false_eq_true, if_false]
    rw [readDocs_modifyDocs]
  refine ⟨hget, ?_, ?_, ?_⟩
  · intro k hk
    rw [hget]
    exact hasKey_deep_update_right _ _ _ hk
  · intro k hk
    rw [hget]
    exact hasKey_deep_update_left _ _ _ hk
  · intro s hs
    exact sanitize_dict_go_strs_tagFree [] data (by intro s2 hs2; simp [strs_of_dict] at hs2)
      s hs

/-- Witness for C8: writing `{"name": "Bob<i>!"}` over a fresh `alice`
profile. -/
theorem profile_roundtrip_deep_merge_witness :
    sanitize_user_id "alice" = .ok "alice" ∧
    get_user_profile
      (store_user_profile 1 (create_user 0 ({} : StoreState) "alice" none).2 "alice"
        [("name".toList, JVal.str "Bob<i>!".toList)]).2 "alice" =
      deep_update (readDocs "alice" (create_user 0 ({} : StoreState) "alice" none).2).profile
        (sanitize_dict [("name".toList, JVal.str "Bob<i>!".toList)]) :=
  ⟨rfl, (profile_roundtrip_deep_merge 1 (create_user 0 ({} : StoreState) "alice" none).2
    "alice" [("name".toList, JVal.str "Bob<i>!".toList)] rfl (by decide)).1⟩

/-! ### Claim theorems: history bound -/

/-- `store_message` for an indexed, self-sanitized user id: succeeds,
leaves the index unchanged, and the stored history becomes the trimmed
append of the new entry. -/
theorem store_message_eq (now today : ℤ) (limit : ℕ) (st : StoreState) (uid : String)
    (msg : List Char) (isUser : Bool) (ts : Option ℤ)
    (md : Option (List (List Char × JVal)))
    (hsan : sanitize_user_id uid = .ok uid) (hmem : uid ∈ st.index) :
    (store_message now today limit st uid msg isUser ts md).1 = true ∧
    (store_message now today limit st uid msg isUser ts md).2.index = st.index ∧
    (readDocs uid (store_message now today limit st uid msg isUser ts md).2).messages =
      pyTrim limit ((readDocs uid st).messages ++ [message_entry now msg isUser ts md]) := by
  have hex : user_exists st uid = (true, st) := by
    simp [user_exists, hsan, hmem]
  have hbody : store_message now today limit st uid msg isUser ts md =
      (true, modifyDocs uid (fun d =>
        { d with
          messages := pyTrim limit ((readDocs uid st).messages ++
            [message_entry now msg isUser ts md]) })
        (update_message_metrics today uid (message_entry now msg isUser ts md) st)) := by
    simp [store_message, store_message_body, hsan, hex]
  rw [hbody]
  refine ⟨rfl, ?_, ?_⟩
  · show (update_message_metrics today uid _ st).index = st.index
    simp only [update_message_metrics, modifyDocs]
    split
    · simp only [update_streak_op, hsan, hex]
      split <;> rfl
    · rfl
  · rw [readDocs_modifyDocs]

/-- Python list lemma behind the history bound: trimming after appending
to a trailing slice is the trailing slice of the full append (for a
positive limit). -/
theorem pyTrim_lastN (limit : ℕ) (hlim : 1 ≤ limit) (acc : List Message) (e : Message) :
    pyTrim limit (acc.drop (acc.length - limit) ++ [e]) =
      (acc ++ [e]).drop ((acc ++ [e]).length - limit) := by
  have hlen : (acc.drop (acc.length - limit)).length = acc.length - (acc.length - limit) :=
    List.length_drop _ _
  by_cases hsmall : acc.length + 1 ≤ limit
  · have h0 : acc.length - limit = 0 := by omega
    have h1 : (acc ++ [e]).length - limit = 0 := by
      simp only [List.length_append, List.length_singleton]
      omega
    rw [h0, h1]
    simp only [List.drop_zero, pyTrim, List.length_append, List.length_drop,
      List.length_singleton]
    rw [if_neg (by omega)]
  · have hge : limit ≤ acc.length := by omega
    have hlast : (acc.drop (acc.length - limit)).length = limit := by omega
    have hlen2 : (acc.drop (acc.length - limit) ++ [e]).length = limit + 1 := by
      simp [hlast]
    simp only [pyTrim]
    rw [hlen2, if_pos (by omega), if_neg (by omega)]
    have hd1 : limit + 1 - limit = 1 := by omega
    rw [hd1,
      List.drop_append_of_le_length (by omega : 1 ≤ (acc.drop (acc.length - limit)).length),
      List.drop_drop]
    have h2 : (acc ++ [e]).length - limit = acc.length + 1 - limit := by simp
    rw [h2,
      List.drop_append_of_le_length (by omega : acc.length + 1 - limit ≤ acc.length)]
    have h3 : acc.length - limit + 1 = acc.length + 1 - limit := by omega
    rw [h3]

/-- A sequence of `store_message` calls for one user; each input is
`(timestamp used as now, content, is_user)`, with no explicit timestamp
or metadata arguments. -/
def run_store (today : ℤ) (limit : ℕ) (uid : String) (st : StoreState)
    (inputs : List (ℤ × List Char × Bool)) : StoreState :=
  inputs.foldl (fun s i => (store_message i.1 today limit s uid i.2.1 i.2.2 none none).2) st

theorem run_store_invariant (today : ℤ) (limit : ℕ) (hlim : 1 ≤ limit) (uid : String)
    (hsan : sanitize_user_id uid = .ok uid) :
    ∀ (inputs : List (ℤ × List Char × Bool)) (st : StoreState) (acc : List Message),
      uid ∈ st.index →
      (readDocs uid st).messages = acc.drop (acc.length - limit) →
      (run_store today limit uid st inputs).index = st.index ∧
      (readDocs uid (run_store today limit uid st inputs)).messages =
        (acc ++ inputs.map (fun i => message_entry i.1 i.2.1 i.2.2 none none)).drop
          ((acc ++ inputs.map (fun i => message_entry i.1 i.2.1 i.2.2 none none)).length
            - limit) := by
  intro inputs
  induction inputs with
  | nil =>
    intro st acc hmem hmsgs
    simpa [run_store] using hmsgs
  | cons i rest ih =>
    intro st acc hmem hmsgs
    have hstep := store_message_eq i.1 today limit st uid i.2.1 i.2.2 none none hsan hmem
    have hrun : run_store today limit uid st (i :: rest) =
        run_store today limit uid
          (store_message i.1 today limit st uid i.2.1 i.2.2 none none).2 rest := by
      simp [run_store]
    have hmem2 : uid ∈ (store_message i.1 today limit st uid i.2.1 i.2.2 none none).2.index := by
      rw [hstep.2.1]
      exact hmem
    have hmsgs2 : (readDocs uid
        (store_message i.1 today limit st uid i.2.1 i.2.2 none none).2).messages =
        (acc ++ [message_entry i.1 i.2.1 i.2.2 none none]).drop
          ((acc ++ [message_entry i.1 i.2.1 i.2.2 none none]).length - limit) := by
      rw [hstep.2.2, hmsgs, pyTrim_lastN limit hlim]
    have hrec := ih (store_message i.1 today limit st uid i.2.1 i.2.2 none none).2
      (acc ++ [message_entry i.1 i.2.1 i.2.2 none none]) hmem2 (by rw [hmsgs2])
    rw [hrun]
    refine ⟨hrec.1.trans hstep.2.1, ?_⟩
    rw [hrec.2]
    simp

/-- C2: starting from a user with an empty history (e.g. freshly
created), after any sequence of `store_message` calls the stored history
is the trailing `limit` slice of all appended entries — so its length is
`min N limit`, which is `limit` exactly once `N ≥ limit` and never
exceeds `limit` — and `get_recent_messages` with no limit returns
exactly the most recent `limit` entries in their original chronological
order.  The positive-limit hypothesis reflects that a configured
history limit is at least 1 (every configuration in the repository uses
100); with `limit = 0` Python's `messages[-0:]` slices nothing off. -/
theorem store_message_history_bound (today : ℤ) (limit : ℕ) (hlim : 1 ≤ limit)
    (uid : String) (hsan : sanitize_user_id uid = .ok uid) (st : StoreState)
    (hmem : uid ∈ st.index) (hempty : (readDocs uid st).messages = [])
    (inputs : List (ℤ × List Char × Bool)) :
    (readDocs uid (run_store today limit uid st inputs)).messages.length =
      min inputs.length limit ∧
    (readDocs uid (run_store today limit uid st inputs)).messages.length ≤ limit ∧
    get_recent_messages (run_store today limit uid st inputs) uid none =
      (inputs.map (fun i => message_entry i.1 i.2.1 i.2.2 none none)).drop
        (inputs.length - limit) := by
  have hinv := run_store_invariant today limit hlim uid hsan inputs st [] hmem
    (by simpa using hempty)
  have hmsgs : (readDocs uid (run_store today limit uid st inputs)).messages =
      (inputs.map (fun i => message_entry i.1 i.2.1 i.2.2 none none)).drop
        ((inputs.map (fun i => message_entry i.1 i.2.1 i.2.2 none none)).length - limit) := by
    simpa using hinv.2
  have hlen : (readDocs uid (run_store today limit uid st inputs)).messages.length =
      min inputs.length limit := by
    rw [hmsgs, List.length_drop, List.length_map]
    omega
  refine ⟨hlen, by omega, ?_⟩
  have hmem2 : uid ∈ (run_store today limit uid st inputs).index := by
    rw [hinv.1]
    exact hmem
  have hex : user_exists (run_store today limit uid st inputs) uid =
      (true, run_store today limit uid st inputs) := by
    simp [user_exists, hsan, hmem2]
  simp only [get_recent_messages, hsan, hex, Bool.not_true, Bool.false_eq_true, if_false]
  rw [hmsgs, List.length_map]

/-- Witness for C2: three messages through a limit-2 store keep the last
two in order. -/
theorem store_message_history_bound_witness :
    (readDocs "alice" (run_store 0 2 "alice" (create_user 0 ({} : StoreState) "alice" none).2
      [(1, "a".toList, true), (2, "b".toList, true), (3, "c".toList, true)])).messages.length =
      min 3 2 :=
  (store_message_history_bound 0 2 (by decide) "alice" rfl
    (create_user 0 ({} : StoreState) "alice" none).2 (by decide) rfl
    [(1, "a".toList, true), (2, "b".toList, true), (3, "c".toList, true)]).1

/-! ### Atomic document writes (`JsonMemoryStore._write_json_file`) -/

/-- What a file on disk can hold: a complete, valid JSON serialization
of a document, or a torn byte sequence left by an interrupted write. -/
inductive FileData where
  | whole (d : JVal)
  | torn (s : List Char)

/-- The two paths `_write_json_file` touches: the target document file
and its sibling `<file>.tmp`.  `none` is an absent file. -/
structure FS where
  target : Option FileData
  temp : Option FileData

/-- Where `_write_json_file` can raise: in `os.makedirs` (before any
file content changes), during `open`/`json.dump` on the temp file
(leaving a torn temp, the target untouched), or in
`os.replace`/`os.rename` before it takes effect (the rename itself is
atomic by the operating system's contract — it either happens entirely
or not at all).  `noFault` is the normal run. -/
inductive WriteFault where
  | mkdirs
  | tempWrite (tornContent : List Char)
  | replace
  | noFault

/-- `_write_json_file`: make the directory, serialize the whole document
into the sibling temp file, atomically replace the target, return
`True`; any exception is caught and turns into `False`.  The result is
`(returned bool, final file system, the file-system states observed at
every step boundary)`. -/
def write_json_file (fs : FS) (d : JVal) (fault : WriteFault) :
    Bool × FS × List FS :=
  match fault with
  | .mkdirs => (false, fs, [fs])
  | .tempWrite s =>
    let s1 : FS := { fs with temp := some (.torn s) }
    (false, s1, [fs, s1])
  | .replace =>
    let s1 : FS := { fs with temp := some (.whole d) }
    (false, s1, [fs, s1])
  | .noFault =>
    let s1 : FS := { fs with temp := some (.whole d) }
    let s2 : FS := { target := some (.whole d), temp := none }
    (true, s2, [fs, s1, s2])

/-- C1: at every observable point of a document write the target path
holds either exactly what it held before — absent, or the prior fully
valid document — or the complete new document, never a torn mix (only
the sibling temp file can hold torn content); and whenever the write
returns `False` the target is unchanged. -/
theorem write_json_file_atomic (fs : FS) (d : JVal) (fault : WriteFault) :
    (∀ s ∈ (write_json_file fs d fault).2.2,
      s.target = fs.target ∨ s.target = some (FileData.whole d)) ∧
    ((write_json_file fs d fault).1 = false →
      (write_json_file fs d fault).2.1.target = fs.target) := by
  cases fault with
  | mkdirs =>
    refine ⟨?_, fun _ => rfl⟩
    intro s hs
    simp only [write_json_file, List.mem_singleton] at hs
    subst hs
    exact Or.inl rfl
  | tempWrite torn =>
    refine ⟨?_, fun _ => rfl⟩
    intro s hs
    simp only [write_json_file, List.mem_cons, List.mem_singleton,
      List.not_mem_nil, or_false] at hs
    rcases hs with hs | hs <;> subst hs <;> exact Or.inl rfl
  | replace =>
    refine ⟨?_, fun _ => rfl⟩
    intro s hs
    simp only [write_json_file, List.mem_cons, List.mem_singleton,
      List.not_mem_nil, or_false] at hs
    rcases hs with hs | hs <;> subst hs <;> exact Or.inl rfl
  | noFault =>
    refine ⟨?_, fun h => by simp [write_json_file] at h⟩
    intro s hs
    simp only [write_json_file, List.mem_cons, List.not_mem_nil, or_false] at hs
    rcases hs with hs | hs | hs <;> subst hs
    · exact Or.inl rfl
    · exact Or.inl rfl
    · exact Or.inr rfl

/-- Witness for C1: a crash during the temp write over a prior `null`
document leaves the target holding the prior document. -/
theorem write_json_file_atomic_witness :
    (⟨some (FileData.whole JVal.null), some (FileData.torn "[1, 2".toList)⟩ : FS).target =
        (⟨some (FileData.whole JVal.null), none⟩ : FS).target ∨
      (⟨some (FileData.whole JVal.null), some (FileData.torn "[1, 2".toList)⟩ : FS).target =
        some (FileData.whole (JVal.num 5)) :=
  (write_json_file_atomic ⟨some (.whole .null), none⟩ (JVal.num 5)
      (.tempWrite "[1, 2".toList)).1
    ⟨some (FileData.whole JVal.null), some (FileData.torn "[1, 2".toList)⟩
    (by simp [write_json_file])
